import Mathlib

/-!
Shallow embedding of the undo/redo form history of
src/src/app/home/home.component.ts (class HomeComponent).

The component keeps three pieces of state that the history mechanism
touches: the reactive form value (three nullable string fields), the
history array of snapshots, and the integer cursor currentIndex
(initialised to -1, set to 0 by the initial saveState in ngOnInit).
UI concerns (template, toastr notifications, dependency injection) have
no effect on these fields and are not modelled.

Array reads history[i] in undo/redo are embedded as an Option-returning
lookup: none corresponds to the JavaScript out-of-bounds read that would
yield undefined. Array.prototype.splice(start) with a single argument is
embedded with its full semantics, including the clamping of a negative
start position.
-/

/-- A snapshot of the form value: the object produced by myForm.value,
with fields name, email, country of type string or null
(interface IUndoRedoForm via ExtractFormControl). -/
structure Snapshot where
  name : Option String
  email : Option String
  country : Option String
deriving DecidableEq

/-- The component state relevant to the history mechanism: the current
form value, the history array, and the cursor currentIndex. -/
structure ComponentState where
  myForm : Snapshot
  history : List Snapshot
  currentIndex : Int
deriving DecidableEq

/-- The form value installed by ngOnInit: every control starts at the
empty string (not null). -/
def emptySnapshot : Snapshot := ⟨some "", some "", some ""⟩

/-- Component state right after the field initialisers and the form
group creation in ngOnInit, before the initial saveState call:
history = [], currentIndex = -1, form holding the empty values. -/
def initState : ComponentState := ⟨emptySnapshot, [], -1⟩

/-- canUndo(): return this.currentIndex > 0. -/
def canUndo (s : ComponentState) : Bool := s.currentIndex > 0

/-- canRedo(): return this.currentIndex < this.history.length - 1. -/
def canRedo (s : ComponentState) : Bool :=
  s.currentIndex < (s.history.length : Int) - 1

/-- JavaScript Array.prototype.splice(start) with one argument: the
array keeps the prefix before the normalised start position and the rest
is removed. A negative start counts back from the end and is clamped at
0; a start beyond the length removes nothing. -/
def spliceTruncate (l : List Snapshot) (start : Int) : List Snapshot :=
  l.take (if start < 0 then ((l.length : Int) + start).toNat else start.toNat)

/-- saveState(): read the current form value; if currentIndex is not at
the latest position, splice away everything after it; push the current
value; set currentIndex to the new last index. -/
def saveState (s : ComponentState) : ComponentState :=
  let currentState := s.myForm
  let history1 :=
    if s.currentIndex < (s.history.length : Int) - 1 then
      spliceTruncate s.history (s.currentIndex + 1)
    else s.history
  let history2 := history1 ++ [currentState]
  { s with history := history2, currentIndex := (history2.length : Int) - 1 }

/-- JavaScript indexed read l[i]: some value when 0 ≤ i < length,
otherwise none (undefined). -/
def getAt (l : List Snapshot) (i : Int) : Option Snapshot :=
  if 0 ≤ i then l.get? i.toNat else none

/-- undo(): when canUndo(), decrement currentIndex and write
history[currentIndex] into the form with emitEvent false, so the
valueChanges subscription does not fire saveState. The none result marks
the (claimed unreachable) out-of-bounds read. -/
def undo (s : ComponentState) : Option ComponentState :=
  if canUndo s then
    let i := s.currentIndex - 1
    match getAt s.history i with
    | some v => some { s with currentIndex := i, myForm := v }
    | none => none
  else some s

/-- redo(): when canRedo(), increment currentIndex and write
history[currentIndex] into the form with emitEvent false. -/
def redo (s : ComponentState) : Option ComponentState :=
  if canRedo s then
    let i := s.currentIndex + 1
    match getAt s.history i with
    | some v => some { s with currentIndex := i, myForm := v }
    | none => none
  else some s

/-- A user edit: the form value changes to v and the valueChanges
subscription installed in ngOnInit fires saveState. -/
def edit (s : ComponentState) (v : Snapshot) : ComponentState :=
  saveState { s with myForm := v }

/-- States of the running component: ngOnInit ends with saveState on
the freshly created form, and every later state arises from a saveState
call, a user edit, or a successful undo/redo. -/
inductive Reachable : ComponentState → Prop where
  | init : Reachable (saveState initState)
  | save {s : ComponentState} : Reachable s → Reachable (saveState s)
  | editStep {s : ComponentState} (v : Snapshot) :
      Reachable s → Reachable (edit s v)
  | undoStep {s s' : ComponentState} :
      Reachable s → undo s = some s' → Reachable s'
  | redoStep {s s' : ComponentState} :
      Reachable s → redo s = some s' → Reachable s'

/-- The reachable-state invariant: the cursor indexes a valid position
and the snapshot there is the one the form displays. -/
def HistInv (s : ComponentState) : Prop :=
  0 ≤ s.currentIndex ∧ s.currentIndex < (s.history.length : Int) ∧
    s.history.get? s.currentIndex.toNat = some s.myForm

lemma get?_snoc_length (l : List Snapshot) (a : Snapshot) :
    (l ++ [a]).get? l.length = some a := by
  induction l with
  | nil => rfl
  | cons x xs ih => simp

lemma bool_eq_false {b : Bool} (h : ¬ b = true) : b = false := by
  cases b
  · rfl
  · exact absurd rfl h

lemma saveState_myForm (s : ComponentState) : (saveState s).myForm = s.myForm := rfl

lemma saveState_cursor (s : ComponentState) :
    (saveState s).currentIndex = ((saveState s).history.length : Int) - 1 := rfl

lemma saveState_history (s : ComponentState) (h : -1 ≤ s.currentIndex) :
    (saveState s).history =
      s.history.take (s.currentIndex + 1).toNat ++ [s.myForm] := by
  unfold saveState
  dsimp only
  by_cases hc : s.currentIndex < (s.history.length : Int) - 1
  · rw [if_pos hc]
    unfold spliceTruncate
    rw [if_neg (by omega : ¬ s.currentIndex + 1 < 0)]
  · rw [if_neg hc]
    rw [List.take_of_length_le (by omega : s.history.length ≤ (s.currentIndex + 1).toNat)]

lemma saveState_inv (s : ComponentState) : HistInv (saveState s) := by
  unfold HistInv saveState
  dsimp only
  set l1 := (if s.currentIndex < (s.history.length : Int) - 1 then
      spliceTruncate s.history (s.currentIndex + 1) else s.history) with hl1
  refine ⟨?_, ?_, ?_⟩
  · simp only [List.length_append, List.length_singleton]
    omega
  · omega
  · rw [show ((((l1 ++ [s.myForm]).length : Int) - 1).toNat) = l1.length by
      simp only [List.length_append, List.length_singleton]; omega]
    exact get?_snoc_length l1 s.myForm

lemma getAt_some (l : List Snapshot) (i : Int) (h0 : 0 ≤ i)
    (h1 : i < (l.length : Int)) :
    ∃ v, getAt l i = some v := by
  unfold getAt
  rw [if_pos h0]
  have hlt : i.toNat < l.length := by omega
  exact ⟨l.get ⟨i.toNat, hlt⟩, List.get?_eq_get hlt⟩

lemma canUndo_iff (s : ComponentState) : canUndo s = true ↔ 0 < s.currentIndex := by
  simp [canUndo]

lemma canRedo_iff (s : ComponentState) :
    canRedo s = true ↔ s.currentIndex < (s.history.length : Int) - 1 := by
  simp [canRedo]

lemma undo_of_not_canUndo {s : ComponentState} (h : canUndo s = false) :
    undo s = some s := by
  simp [undo, h]

lemma undo_of_canUndo {s : ComponentState} (hwf : HistInv s)
    (h : canUndo s = true) :
    ∃ v, getAt s.history (s.currentIndex - 1) = some v ∧
      undo s = some { s with currentIndex := s.currentIndex - 1, myForm := v } := by
  have hpos : 0 < s.currentIndex := (canUndo_iff s).mp h
  obtain ⟨v, hv⟩ := getAt_some s.history (s.currentIndex - 1)
    (by omega) (by have := hwf.2.1; omega)
  exact ⟨v, hv, by simp [undo, h, hv]⟩

lemma redo_of_not_canRedo {s : ComponentState} (h : canRedo s = false) :
    redo s = some s := by
  simp [redo, h]

lemma redo_of_canRedo {s : ComponentState} (hwf : HistInv s)
    (h : canRedo s = true) :
    ∃ v, getAt s.history (s.currentIndex + 1) = some v ∧
      redo s = some { s with currentIndex := s.currentIndex + 1, myForm := v } := by
  have hlt : s.currentIndex < (s.history.length : Int) - 1 := (canRedo_iff s).mp h
  obtain ⟨v, hv⟩ := getAt_some s.history (s.currentIndex + 1)
    (by have := hwf.1; omega) (by omega)
  exact ⟨v, hv, by simp [redo, h, hv]⟩

lemma getAt_eq_get? {l : List Snapshot} {i : Int} (h0 : 0 ≤ i) :
    getAt l i = l.get? i.toNat := by
  unfold getAt
  rw [if_pos h0]

lemma undo_inv {s s' : ComponentState} (hwf : HistInv s)
    (h : undo s = some s') : HistInv s' := by
  by_cases hc : canUndo s
  · obtain ⟨v, hv, he⟩ := undo_of_canUndo hwf hc
    rw [he] at h
    obtain rfl : _ = s' := Option.some.inj h
    have hpos : 0 < s.currentIndex := (canUndo_iff s).mp hc
    refine ⟨by dsimp; omega, by dsimp; have := hwf.2.1; omega, ?_⟩
    dsimp
    rw [← getAt_eq_get? (by omega : (0:Int) ≤ s.currentIndex - 1)]
    exact hv
  · rw [undo_of_not_canUndo (Bool.not_eq_true _ ▸ eq_false_of_ne_true hc)] at h
    obtain rfl : s = s' := Option.some.inj h
    exact hwf

lemma redo_inv {s s' : ComponentState} (hwf : HistInv s)
    (h : redo s = some s') : HistInv s' := by
  by_cases hc : canRedo s
  · obtain ⟨v, hv, he⟩ := redo_of_canRedo hwf hc
    rw [he] at h
    obtain rfl : _ = s' := Option.some.inj h
    have hlt : s.currentIndex < (s.history.length : Int) - 1 := (canRedo_iff s).mp hc
    refine ⟨by dsimp; have := hwf.1; omega, by dsimp; omega, ?_⟩
    dsimp
    rw [← getAt_eq_get? (by have := hwf.1; omega : (0:Int) ≤ s.currentIndex + 1)]
    exact hv
  · rw [redo_of_not_canRedo (Bool.not_eq_true _ ▸ eq_false_of_ne_true hc)] at h
    obtain rfl : s = s' := Option.some.inj h
    exact hwf

lemma reachable_inv {s : ComponentState} (h : Reachable s) : HistInv s := by
  induction h with
  | init => exact saveState_inv _
  | save _ _ => exact saveState_inv _
  | editStep v _ _ => exact saveState_inv _
  | undoStep _ h ih => exact undo_inv ih h
  | redoStep _ h ih => exact redo_inv ih h

/-- Snapshot S1 of the spec scenario: name = "A". -/
def snapA : Snapshot := ⟨some "A", some "", some ""⟩

/-- Snapshot S2 of the spec scenario: name = "AB". -/
def snapAB : Snapshot := ⟨some "AB", some "", some ""⟩

/-- Snapshot S3 of the spec scenario: name = "AX". -/
def snapAX : Snapshot := ⟨some "AX", some "", some ""⟩

/-- Scenario state with history [S0, S1, S2] and cursor 2. -/
def stateS2 : ComponentState := edit (edit (saveState initState) snapA) snapAB

/-- Scenario state after undo from stateS2: cursor 1, form S1. -/
def stateU : ComponentState := ⟨snapA, [emptySnapshot, snapA, snapAB], 1⟩

/-- State with history [S0, S1] and cursor 1 (one edit after init). -/
def stateS1 : ComponentState := edit (saveState initState) snapA

/-- State after undo from stateS1: cursor 0, form S0. -/
def stateS1u : ComponentState := ⟨emptySnapshot, [emptySnapshot, snapA], 0⟩

/-- State after redo from stateS1u: cursor 1, form S1. -/
def stateS1ur : ComponentState := ⟨snapA, [emptySnapshot, snapA], 1⟩

lemma reachable_stateS1 : Reachable stateS1 :=
  Reachable.editStep snapA Reachable.init

lemma reachable_stateS1u : Reachable stateS1u :=
  Reachable.undoStep reachable_stateS1 (by decide)

lemma reachable_stateU : Reachable stateU :=
  Reachable.undoStep
    (Reachable.editStep snapAB (Reachable.editStep snapA Reachable.init))
    (by decide)

/-- C1: saveState() reads the current form value, truncates the history to
the prefix of snapshots at indices 0..cursor, appends the new snapshot, and
sets the cursor to the new last index; its only effects are on the history
buffer and the cursor, the form value itself being left unchanged. -/
theorem saveState_spec (s : ComponentState) (h : -1 ≤ s.currentIndex) :
    (saveState s).history =
      s.history.take (s.currentIndex + 1).toNat ++ [s.myForm] ∧
    (saveState s).currentIndex = ((saveState s).history.length : Int) - 1 ∧
    (saveState s).myForm = s.myForm :=
  ⟨saveState_history s h, saveState_cursor s, saveState_myForm s⟩

/-- Witness for C1 at the pre-initialisation state (cursor -1). -/
theorem saveState_spec_witness :
    (saveState initState).history =
      initState.history.take (initState.currentIndex + 1).toNat ++
        [initState.myForm] ∧
    (saveState initState).currentIndex =
      ((saveState initState).history.length : Int) - 1 ∧
    (saveState initState).myForm = initState.myForm :=
  saveState_spec initState (by decide)

/-- C2: in every reachable state where cursor < history.length - 1 (at
least one undo has been performed), an edit removes every snapshot at an
index greater than the pre-edit cursor, so the new history is the prefix
0..cursor followed by the new snapshot, and canRedo() is false right
afterwards. -/
theorem edit_after_undo_truncates (s : ComponentState) (v : Snapshot)
    (h : Reachable s) (hr : canRedo s = true) :
    (edit s v).history = s.history.take (s.currentIndex + 1).toNat ++ [v] ∧
    canRedo (edit s v) = false := by
  have hwf := reachable_inv h
  constructor
  · show (saveState { s with myForm := v }).history = _
    rw [saveState_history { s with myForm := v }
      (by have h0 := hwf.1; dsimp; omega)]
  · have h1 := saveState_cursor { s with myForm := v }
    show canRedo (saveState { s with myForm := v }) = false
    simp only [canRedo, decide_eq_false_iff_not, not_lt]
    omega

/-- Witness for C2, realising the spec scenario: from history
[S0, S1, S2] with cursor 1 after one undo, the edit to name = "AX" yields
history [S0, S1, S3], cursor 2, and redo() becomes a no-op. -/
theorem edit_after_undo_truncates_witness :
    edit stateU snapAX = ⟨snapAX, [emptySnapshot, snapA, snapAX], 2⟩ ∧
    ((edit stateU snapAX).history =
        stateU.history.take (stateU.currentIndex + 1).toNat ++ [snapAX] ∧
      canRedo (edit stateU snapAX) = false) ∧
    redo (edit stateU snapAX) = some (edit stateU snapAX) :=
  ⟨by decide,
   edit_after_undo_truncates stateU snapAX reachable_stateU (by decide),
   by decide⟩

/-- C3: in every state of the running component, undo() never fails; it is
the identity on the whole state unless cursor > 0, and when cursor > 0 it
decrements the cursor by exactly one, appends nothing to the history, and
writes history[cursor] at the new cursor into the form. -/
theorem undo_spec (s : ComponentState) (h : Reachable s) :
    ∃ s', undo s = some s' ∧
      (s.currentIndex ≤ 0 → s' = s) ∧
      (0 < s.currentIndex →
        s'.currentIndex = s.currentIndex - 1 ∧
        s'.history = s.history ∧
        getAt s'.history s'.currentIndex = some s'.myForm) := by
  have hwf := reachable_inv h
  by_cases hpos : 0 < s.currentIndex
  · have hc : canUndo s = true := (canUndo_iff s).mpr hpos
    obtain ⟨v, hv, he⟩ := undo_of_canUndo hwf hc
    exact ⟨_, he, fun h0 => absurd hpos (by omega), fun _ => ⟨rfl, rfl, hv⟩⟩
  · have hc : canUndo s = false := by
      simp only [canUndo, decide_eq_false_iff_not]
      omega
    exact ⟨s, undo_of_not_canUndo hc, fun _ => rfl, fun h0 => absurd h0 hpos⟩

/-- Witness for C3 at the reachable state with history [S0, S1], cursor 1. -/
theorem undo_spec_witness :
    ∃ s', undo stateS1 = some s' ∧
      (stateS1.currentIndex ≤ 0 → s' = stateS1) ∧
      (0 < stateS1.currentIndex →
        s'.currentIndex = stateS1.currentIndex - 1 ∧
        s'.history = stateS1.history ∧
        getAt s'.history s'.currentIndex = some s'.myForm) :=
  undo_spec stateS1 reachable_stateS1

/-- C4: in every state of the running component, redo() never fails; it is
the identity on the whole state unless cursor < history.length - 1, and in
that case it increments the cursor by exactly one, appends nothing to the
history, and writes history[cursor] at the new cursor into the form. -/
theorem redo_spec (s : ComponentState) (h : Reachable s) :
    ∃ s', redo s = some s' ∧
      ((s.history.length : Int) - 1 ≤ s.currentIndex → s' = s) ∧
      (s.currentIndex < (s.history.length : Int) - 1 →
        s'.currentIndex = s.currentIndex + 1 ∧
        s'.history = s.history ∧
        getAt s'.history s'.currentIndex = some s'.myForm) := by
  have hwf := reachable_inv h
  by_cases hlt : s.currentIndex < (s.history.length : Int) - 1
  · have hc : canRedo s = true := (canRedo_iff s).mpr hlt
    obtain ⟨v, hv, he⟩ := redo_of_canRedo hwf hc
    exact ⟨_, he, fun h0 => absurd hlt (by omega), fun _ => ⟨rfl, rfl, hv⟩⟩
  · have hc : canRedo s = false := by
      simp only [canRedo, decide_eq_false_iff_not]
      omega
    exact ⟨s, redo_of_not_canRedo hc, fun _ => rfl, fun h0 => absurd h0 hlt⟩

/-- Witness for C4 at the reachable state with history [S0, S1], cursor 0. -/
theorem redo_spec_witness :
    ∃ s', redo stateS1u = some s' ∧
      ((stateS1u.history.length : Int) - 1 ≤ stateS1u.currentIndex →
        s' = stateS1u) ∧
      (stateS1u.currentIndex < (stateS1u.history.length : Int) - 1 →
        s'.currentIndex = stateS1u.currentIndex + 1 ∧
        s'.history = stateS1u.history ∧
        getAt s'.history s'.currentIndex = some s'.myForm) :=
  redo_spec stateS1u reachable_stateS1u

/-- C5: the cursor is -1 in the pre-initialisation state, and in every
state reachable from the initialised component by saveState, edits, undo
and redo the cursor lies in [0, history.length - 1], the history is
non-empty, and the cursor is never -1 again. -/
theorem cursor_in_range :
    initState.currentIndex = -1 ∧
    ∀ s : ComponentState, Reachable s →
      0 ≤ s.currentIndex ∧ s.currentIndex ≤ (s.history.length : Int) - 1 ∧
      s.history ≠ [] ∧ s.currentIndex ≠ -1 := by
  refine ⟨rfl, fun s h => ?_⟩
  have hwf := reachable_inv h
  have h0 := hwf.1
  have h1 := hwf.2.1
  refine ⟨h0, by omega, ?_, by omega⟩
  intro hnil
  rw [hnil] at h1
  simp at h1
  omega

/-- Witness for C5 at the initialised state (history [S0], cursor 0). -/
theorem cursor_in_range_witness :
    0 ≤ (saveState initState).currentIndex ∧
    (saveState initState).currentIndex ≤
      ((saveState initState).history.length : Int) - 1 ∧
    (saveState initState).history ≠ [] ∧
    (saveState initState).currentIndex ≠ -1 :=
  cursor_in_range.2 (saveState initState) Reachable.init

/-- C6: immediately after any edit (which fires saveState through the
valueChanges subscription), history.length equals cursor + 1: the cursor
points at the last snapshot and no redoable future exists. -/
theorem history_length_after_edit (s : ComponentState) (v : Snapshot) :
    ((edit s v).history.length : Int) = (edit s v).currentIndex + 1 ∧
    canRedo (edit s v) = false := by
  unfold edit
  have h1 := saveState_cursor { s with myForm := v }
  refine ⟨by omega, ?_⟩
  simp only [canRedo, decide_eq_false_iff_not, not_lt]
  omega

/-- C7: from any reachable state where canUndo() holds, undo() followed by
redo() with no intervening edit restores the cursor, the form value, and
the history to exactly what they were before the undo. -/
theorem undo_redo_round_trip (s s₁ s₂ : ComponentState) (h : Reachable s)
    (hu : canUndo s = true) (h1 : undo s = some s₁) (h2 : redo s₁ = some s₂) :
    s₂.currentIndex = s.currentIndex ∧ s₂.myForm = s.myForm ∧
    s₂.history = s.history := by
  have hwf := reachable_inv h
  have hpos : 0 < s.currentIndex := (canUndo_iff s).mp hu
  have hlen : s.currentIndex < (s.history.length : Int) := hwf.2.1
  obtain ⟨v, hv, he⟩ := undo_of_canUndo hwf hu
  have hs1 : s₁ = { s with currentIndex := s.currentIndex - 1, myForm := v } := by
    rw [he] at h1
    exact (Option.some.inj h1).symm
  subst hs1
  have hinv1 : HistInv { s with currentIndex := s.currentIndex - 1, myForm := v } :=
    undo_inv hwf he
  have hc2 : canRedo { s with currentIndex := s.currentIndex - 1, myForm := v } = true := by
    rw [canRedo_iff]
    dsimp
    omega
  obtain ⟨w, hw, he2⟩ := redo_of_canRedo hinv1 hc2
  have hs2 : s₂ = { s with currentIndex := s.currentIndex - 1 + 1, myForm := w } := by
    rw [he2] at h2
    exact (Option.some.inj h2).symm
  subst hs2
  have hwv : w = s.myForm := by
    dsimp at hw
    rw [show s.currentIndex - 1 + 1 = s.currentIndex by omega] at hw
    rw [getAt_eq_get? (by omega : (0:Int) ≤ s.currentIndex)] at hw
    have := hwf.2.2
    rw [this] at hw
    exact (Option.some.inj hw).symm
  refine ⟨by dsimp; omega, by dsimp; rw [hwv], rfl⟩

/-- Witness for C7: from history [S0, S1] at cursor 1, undo to cursor 0
and redo back to cursor 1 restore the original state. -/
theorem undo_redo_round_trip_witness :
    stateS1ur.currentIndex = stateS1.currentIndex ∧
    stateS1ur.myForm = stateS1.myForm ∧
    stateS1ur.history = stateS1.history :=
  undo_redo_round_trip stateS1 stateS1u stateS1ur reachable_stateS1
    (by decide) (by decide) (by decide)

/-- C8: canUndo() and canRedo() are pure boundary checks depending only on
the cursor and the history length: canUndo() is false exactly when
cursor ≤ 0, canRedo() is false exactly when cursor ≥ history.length - 1,
and two states agreeing on cursor and history length get the same
answers. -/
theorem can_flags_spec :
    ∀ s : ComponentState,
      ((canUndo s = false) ↔ s.currentIndex ≤ 0) ∧
      ((canRedo s = false) ↔ (s.history.length : Int) - 1 ≤ s.currentIndex) ∧
      ∀ t : ComponentState, s.currentIndex = t.currentIndex →
        s.history.length = t.history.length →
        canUndo s = canUndo t ∧ canRedo s = canRedo t := by
  intro s
  refine ⟨?_, ?_, ?_⟩
  · simp only [canUndo, decide_eq_false_iff_not, not_lt]
  · simp only [canRedo, decide_eq_false_iff_not, not_lt]
  · intro t h1 h2
    unfold canUndo canRedo
    rw [h1, h2]
    exact ⟨rfl, rfl⟩

/-- Witness for C8 at two concrete states agreeing on cursor and length. -/
theorem can_flags_spec_witness :
    ((canUndo stateS1 = false) ↔ stateS1.currentIndex ≤ 0) ∧
    ((canRedo stateS1 = false) ↔
      (stateS1.history.length : Int) - 1 ≤ stateS1.currentIndex) ∧
    canUndo stateS1 = canUndo stateS1ur ∧
    canRedo stateS1 = canRedo stateS1ur :=
  ⟨(can_flags_spec stateS1).1, (can_flags_spec stateS1).2.1,
    (can_flags_spec stateS1).2.2 stateS1ur (by decide) (by decide)⟩

/-- C9: undo() and redo() leave the history sequence itself entirely
unchanged; no snapshot is appended, removed, or overwritten, because the
restored value is written with emitEvent false and saveState is not
re-triggered. -/
theorem undo_redo_frame (s s' : ComponentState) :
    (undo s = some s' → s'.history = s.history) ∧
    (redo s = some s' → s'.history = s.history) := by
  constructor
  · intro h
    by_cases hc : canUndo s = true
    · cases hv : getAt s.history (s.currentIndex - 1) with
      | none =>
        have hnone : undo s = none := by simp [undo, hc, hv]
        rw [hnone] at h
        cases h
      | some v =>
        have he : undo s =
            some { s with currentIndex := s.currentIndex - 1, myForm := v } := by
          simp [undo, hc, hv]
        rw [he] at h
        rw [← Option.some.inj h]
    · rw [undo_of_not_canUndo (bool_eq_false hc)] at h
      rw [← Option.some.inj h]
  · intro h
    by_cases hc : canRedo s = true
    · cases hv : getAt s.history (s.currentIndex + 1) with
      | none =>
        have hnone : redo s = none := by simp [redo, hc, hv]
        rw [hnone] at h
        cases h
      | some v =>
        have he : redo s =
            some { s with currentIndex := s.currentIndex + 1, myForm := v } := by
          simp [redo, hc, hv]
        rw [he] at h
        rw [← Option.some.inj h]
    · rw [redo_of_not_canRedo (bool_eq_false hc)] at h
      rw [← Option.some.inj h]

/-- Witness for C9: the undo from the scenario state [S0, S1, S2] and the
redo from [S0, S1] at cursor 0 both preserve the history array. -/
theorem undo_redo_frame_witness :
    stateU.history = stateS2.history ∧
    stateS1ur.history = stateS1u.history :=
  ⟨(undo_redo_frame stateS2 stateU).1 (by decide),
   (undo_redo_frame stateS1u stateS1ur).2 (by decide)⟩

/-- C10: in every reachable state, the guarded index reads of undo() and
redo() are in bounds: under canUndo() the read at cursor - 1 and under
canRedo() the read at cursor + 1 both succeed, so the none branch of the
embedded lookup is unreachable and both operations are total. -/
theorem guarded_reads_in_bounds (s : ComponentState) (h : Reachable s) :
    (canUndo s = true → (getAt s.history (s.currentIndex - 1)).isSome = true) ∧
    (canRedo s = true → (getAt s.history (s.currentIndex + 1)).isSome = true) ∧
    (undo s).isSome = true ∧ (redo s).isSome = true := by
  have hwf := reachable_inv h
  refine ⟨?_, ?_, ?_, ?_⟩
  · intro hc
    obtain ⟨v, hv, _⟩ := undo_of_canUndo hwf hc
    rw [hv]
    rfl
  · intro hc
    obtain ⟨v, hv, _⟩ := redo_of_canRedo hwf hc
    rw [hv]
    rfl
  · by_cases hc : canUndo s = true
    · obtain ⟨v, _, he⟩ := undo_of_canUndo hwf hc
      rw [he]
      rfl
    · rw [undo_of_not_canUndo (bool_eq_false hc)]
      rfl
  · by_cases hc : canRedo s = true
    · obtain ⟨v, _, he⟩ := redo_of_canRedo hwf hc
      rw [he]
      rfl
    · rw [redo_of_not_canRedo (bool_eq_false hc)]
      rfl

/-- Witness for C10 at the reachable scenario state [S0, S1, S2], cursor 2. -/
theorem guarded_reads_in_bounds_witness :
    (canUndo stateS2 = true →
      (getAt stateS2.history (stateS2.currentIndex - 1)).isSome = true) ∧
    (canRedo stateS2 = true →
      (getAt stateS2.history (stateS2.currentIndex + 1)).isSome = true) ∧
    (undo stateS2).isSome = true ∧ (redo stateS2).isSome = true :=
  guarded_reads_in_bounds stateS2
    (Reachable.editStep snapAB (Reachable.editStep snapA Reachable.init))
